import Mathlib

/-!
Verification of the streaming/decoding core of the `data-api-sdk` TypeScript
repository: a shallow embedding in Lean 4 of

* `src/event-processor.ts` — the binary trade-event decoder
  (`decodeBinaryEvents`) and the windowed aggregator (`processEvents`,
  `processEventsAsync`);
* `src/datastream.ts` — the `Datastream` WebSocket client: dedup filter,
  subscription router, resubscription, disconnect and reconnect backoff.

Modelling conventions:

* byte buffers are `List Nat` (each entry a byte value `< 256`);
* JavaScript numbers are modelled as `Rat`; an IEEE-754 binary32 value read
  by `DataView.getFloat32` is interpreted by `f32FromBits` (NaN/Infinity bit
  patterns, which have no rational value, are mapped to 0 — no verified claim
  depends on them);
* `DataView` reads return `Option` values; `none` corresponds to the
  `RangeError` a JavaScript `DataView` throws on an out-of-bounds read;
* fallible functions return `Except String`.
-/

/-- View an `Except` as a `Sum` (only used to derive decidable equality). -/
def exceptToSum {ε α : Type} : Except ε α → ε ⊕ α
  | .error e => .inl e
  | .ok a => .inr a

instance {ε α : Type} [DecidableEq ε] [DecidableEq α] : DecidableEq (Except ε α) :=
  fun a b => decidable_of_iff (exceptToSum a = exceptToSum b) (by
    cases a <;> cases b <;> simp [exceptToSum])

namespace SolanaTracker

/-! ### Byte-level primitives (`DataView` reads, `Uint8Array.slice`) -/

/-- `DataView.getUint8`: read one byte; `none` models the `RangeError` thrown
on an out-of-bounds access. -/
def getUint8 (data : List Nat) (off : Nat) : Option Nat := data[off]?

/-- `DataView.getUint32(off, true)`: little-endian 32-bit read; `none` models
the `RangeError` thrown when any of the four bytes is out of bounds. -/
def getUint32LE (data : List Nat) (off : Nat) : Option Nat :=
  match data[off]?, data[off+1]?, data[off+2]?, data[off+3]? with
  | some b0, some b1, some b2, some b3 =>
      some (b0 + 2^8 * b1 + 2^16 * b2 + 2^24 * b3)
  | _, _, _, _ => none

/-- The rational value of an IEEE-754 binary32 bit pattern.  Normal and
subnormal values are exact; the `exp = 255` patterns (NaN and ±Infinity) have
no rational value and are mapped to 0 (no verified claim constrains them). -/
def f32FromBits (b : Nat) : Rat :=
  let sign : Rat := if b / 2^31 % 2 == 1 then -1 else 1
  let exp : Nat := b / 2^23 % 2^8
  let frac : Nat := b % 2^23
  if exp == 0 then sign * ((frac : Rat) / 2^149)
  else if exp == 255 then 0
  else sign * (((2^23 + frac : Nat) : Rat) * 2^exp / 2^150)

/-- `DataView.getFloat32(off, true)`: little-endian binary32 read. -/
def getFloat32LE (data : List Nat) (off : Nat) : Option Rat :=
  (getUint32LE data off).map f32FromBits

/-! ### `TextDecoder` (UTF-8, non-fatal mode)

Well-formed sequences are decoded exactly; an ill-formed byte produces the
replacement character U+FFFD and decoding restarts at the following byte
(this approximates the WHATWG error-recovery details, which no verified
claim exercises — the claims only decode well-formed ASCII wallets). -/

/-- The replacement character U+FFFD. -/
def replChar : Char := Char.ofNat 0xFFFD

/-- Lowest admissible second byte for a 3- or 4-byte UTF-8 leader. -/
def utf8SndLo (b : Nat) : Nat :=
  if b == 0xE0 then 0xA0 else if b == 0xF0 then 0x90 else 0x80

/-- Highest admissible second byte for a 3- or 4-byte UTF-8 leader. -/
def utf8SndHi (b : Nat) : Nat :=
  if b == 0xED then 0x9F else if b == 0xF4 then 0x8F else 0xBF

/-- Is `b` a UTF-8 continuation byte within the admissible range? -/
def utf8Cont (lo hi b : Nat) : Bool := lo ≤ b && b ≤ hi

/-- Decode a UTF-8 byte sequence to characters (see section comment).  The
`fuel` argument is a recursion bound; every step consumes at least one byte,
so `fuel = length` never runs out (it keeps the recursion structural and
hence evaluable inside the kernel). -/
def utf8DecodeAux : Nat → List Nat → List Char
  | 0, _ => []
  | _ + 1, [] => []
  | fuel + 1, b :: bs =>
    if b < 0x80 then Char.ofNat b :: utf8DecodeAux fuel bs
    else if b < 0xC2 then replChar :: utf8DecodeAux fuel bs
    else if b < 0xE0 then
      match bs with
      | b1 :: bs1 =>
        if utf8Cont 0x80 0xBF b1 then
          Char.ofNat ((b - 0xC0) * 0x40 + (b1 - 0x80)) :: utf8DecodeAux fuel bs1
        else replChar :: utf8DecodeAux fuel (b1 :: bs1)
      | [] => [replChar]
    else if b < 0xF0 then
      match bs with
      | b1 :: b2 :: bs2 =>
        if utf8Cont (utf8SndLo b) (utf8SndHi b) b1 && utf8Cont 0x80 0xBF b2 then
          Char.ofNat ((b - 0xE0) * 0x1000 + (b1 - 0x80) * 0x40 + (b2 - 0x80)) ::
            utf8DecodeAux fuel bs2
        else replChar :: utf8DecodeAux fuel bs
      | _ => replChar :: utf8DecodeAux fuel bs
    else if b < 0xF5 then
      match bs with
      | b1 :: b2 :: b3 :: bs3 =>
        if utf8Cont (utf8SndLo b) (utf8SndHi b) b1 && utf8Cont 0x80 0xBF b2 &&
            utf8Cont 0x80 0xBF b3 then
          Char.ofNat ((b - 0xF0) * 0x40000 + (b1 - 0x80) * 0x1000 +
              (b2 - 0x80) * 0x40 + (b3 - 0x80)) :: utf8DecodeAux fuel bs3
        else replChar :: utf8DecodeAux fuel bs
      | _ => replChar :: utf8DecodeAux fuel bs
    else replChar :: utf8DecodeAux fuel bs

/-- `new TextDecoder().decode(bytes)`. -/
def utf8DecodeStr (bs : List Nat) : String :=
  String.mk (utf8DecodeAux bs.length bs)

example : utf8DecodeStr [65] = "A" := by decide
example : utf8DecodeStr [66, 66] = "BB" := by decide

/-! ### The binary trade-event decoder (`decodeBinaryEvents`) -/

/-- The decoded event record (`ProcessedEvent` in `interfaces.ts`).  The
interface declares `wallet: string`, but the decoder assigns
`wallets[walletIndex]`, which in JavaScript is `undefined` whenever
`walletIndex` is out of range — so the embedding gives the field type
`Option String`, with `none` standing for `undefined`. -/
structure ProcessedEvent where
  wallet : Option String
  amount : Rat
  priceUsd : Rat
  volume : Rat
  /-- `'buy' | 'sell'` in the interface; the aggregator re-checks it at
  runtime, so the embedding keeps it a plain string. -/
  type : String
  /-- Milliseconds (`timeInSeconds * 1000` in the decoder). -/
  time : Rat
  deriving DecidableEq, Repr

/-- The wallet-table loop of `decodeBinaryEvents`: starting at `off`, read
`count` entries of `u8 length` followed by `length` UTF-8 bytes.  Returns the
decoded wallets and the offset just past the table.  The slice
`data.slice(offset, offset + length)` clamps (JavaScript semantics) and never
fails; only the `getUint8` length read can raise. -/
def readWallets (data : List Nat) : Nat → Nat → Option (List String × Nat)
  | off, 0 => some ([], off)
  | off, count + 1 =>
    match getUint8 data off with
    | none => none
    | some len =>
      let wallet := utf8DecodeStr ((data.drop (off + 1)).take len)
      match readWallets data (off + 1 + len) count with
      | none => none
      | some (ws, off1) => some (wallet :: ws, off1)

/-- The trade loop of `decodeBinaryEvents`: starting at `off`, read `count`
21-byte records (`u32 LE walletIndex`, three `f32 LE` fields, `u8 typeCode`,
`u32 LE timeSeconds`).  `wallets[walletIndex]` is the JavaScript indexing
`wallets[walletIndex]`, i.e. `none`/`undefined` when out of range. -/
def readTrades (data : List Nat) (wallets : List String) :
    Nat → Nat → Option (List ProcessedEvent)
  | _, 0 => some []
  | off, count + 1 =>
    match getUint32LE data off, getFloat32LE data (off + 4),
        getFloat32LE data (off + 8), getFloat32LE data (off + 12),
        getUint8 data (off + 16), getUint32LE data (off + 17) with
    | some walletIndex, some amount, some priceUsd, some volume,
        some typeCode, some timeInSeconds =>
      match readTrades data wallets (off + 21) count with
      | none => none
      | some rest =>
        some ({ wallet := wallets[walletIndex]?,
                amount := amount,
                priceUsd := priceUsd,
                volume := volume,
                type := if typeCode == 0 then "buy" else "sell",
                time := ((timeInSeconds * 1000 : Nat) : Rat) } :: rest)
    | _, _, _, _, _, _ => none

/-- `decodeBinaryEvents` (`event-processor.ts`): `u32 LE walletCount`, the
wallet table, `u32 LE tradeCount`, then the trade records.  `Except.error`
models the `RangeError` a `DataView` read throws past the end of the
buffer. -/
def decodeBinaryEvents (data : List Nat) : Except String (List ProcessedEvent) :=
  match getUint32LE data 0 with
  | none => .error "RangeError"
  | some walletCount =>
    match readWallets data 4 walletCount with
    | none => .error "RangeError"
    | some (wallets, off) =>
      match getUint32LE data off with
      | none => .error "RangeError"
      | some tradeCount =>
        match readTrades data wallets (off + 4) tradeCount with
        | none => .error "RangeError"
        | some events => .ok events

/-! ### The wire layout (spec §4.5), as an encoder

To state the decoder's functional-correctness claim we describe the
*well-formed input buffers* of the wire layout by an encoder: `u32 LE`
wallet count, wallet entries of `u8 length` + UTF-8 bytes, `u32 LE` trade
count, then 21-byte trade records.  The f32 fields of a record are carried
as their raw 32-bit little-endian patterns. -/

/-- Little-endian byte serialization of a 32-bit value. -/
def encodeU32LE (n : Nat) : List Nat :=
  [n % 2^8, n / 2^8 % 2^8, n / 2^16 % 2^8, n / 2^24 % 2^8]

/-- One trade record of the wire layout, fields still unserialized.  The
three f32 fields are given by their IEEE-754 binary32 bit patterns. -/
structure WireTrade where
  walletIndex : Nat
  amountBits : Nat
  priceUsdBits : Nat
  volumeBits : Nat
  typeCode : Nat
  timeSeconds : Nat
  deriving DecidableEq, Repr

/-- The wallet-table section: `u8 length` + bytes per wallet. -/
def walletSection (ws : List (List Nat)) : List Nat :=
  (ws.map (fun w => w.length :: w)).flatten

/-- One serialized 21-byte trade record. -/
def encodeTrade (t : WireTrade) : List Nat :=
  encodeU32LE t.walletIndex ++ encodeU32LE t.amountBits ++
    encodeU32LE t.priceUsdBits ++ encodeU32LE t.volumeBits ++
    [t.typeCode] ++ encodeU32LE t.timeSeconds

/-- The trade section: concatenated 21-byte records. -/
def tradeSection (ts : List WireTrade) : List Nat := (ts.map encodeTrade).flatten

/-- A full well-formed buffer of the wire layout. -/
def encodeWire (wallets : List (List Nat)) (trades : List WireTrade) : List Nat :=
  encodeU32LE wallets.length ++ walletSection wallets ++
    encodeU32LE trades.length ++ tradeSection trades

/-- The event the decoder is specified to produce for one wire record:
wallet resolved by index into the (decoded) wallet table, type 0 = buy and
anything else = sell, and `timeMs = timeSeconds × 1000`. -/
def decodedEvent (wallets : List (List Nat)) (t : WireTrade) : ProcessedEvent :=
  { wallet := (wallets.map utf8DecodeStr)[t.walletIndex]?,
    amount := f32FromBits t.amountBits,
    priceUsd := f32FromBits t.priceUsdBits,
    volume := f32FromBits t.volumeBits,
    type := if t.typeCode == 0 then "buy" else "sell",
    time := ((t.timeSeconds * 1000 : Nat) : Rat) }

/-! ### Reading back what the encoder wrote -/

theorem getUint8_eq_drop (data : List Nat) (off : Nat) :
    getUint8 data off = getUint8 (data.drop off) 0 := by
  simp [getUint8, List.getElem?_drop]

theorem getUint32LE_eq_drop (data : List Nat) (off : Nat) :
    getUint32LE data off = getUint32LE (data.drop off) 0 := by
  simp [getUint32LE, List.getElem?_drop]

theorem getFloat32LE_eq_drop (data : List Nat) (off : Nat) :
    getFloat32LE data off = getFloat32LE (data.drop off) 0 := by
  simp [getFloat32LE, getUint32LE_eq_drop]

theorem drop_append_len (p X : List Nat) (k : Nat) :
    (p ++ X).drop (p.length + k) = X.drop k := List.drop_append k

theorem getUint32LE_encodeU32LE (n : Nat) (r : List Nat) :
    getUint32LE (encodeU32LE n ++ r) 0 = some (n % 2^32) := by
  show getUint32LE (n % 2^8 :: (n / 2^8 % 2^8) :: (n / 2^16 % 2^8) ::
      (n / 2^24 % 2^8) :: r) 0 = some (n % 2^32)
  simp only [getUint32LE]
  simp only [List.getElem?_cons_zero, List.getElem?_cons_succ]
  congr 1
  omega

theorem drop_append_cons (p : List Nat) (b : Nat) (X : List Nat) :
    (p ++ (b :: X)).drop p.length = b :: X := by
  simp

theorem getUint8_append_cons (p : List Nat) (b : Nat) (X : List Nat) :
    getUint8 (p ++ (b :: X)) p.length = some b := by
  rw [getUint8_eq_drop, drop_append_cons]; simp [getUint8]

theorem readWallets_encode (ws : List (List Nat)) (r : List Nat) :
    ∀ p : List Nat,
      readWallets (p ++ (walletSection ws ++ r)) p.length ws.length =
        some (ws.map utf8DecodeStr, p.length + (walletSection ws).length) := by
  induction ws with
  | nil => intro p; simp [readWallets, walletSection]
  | cons w ws ih =>
    intro p
    have hsec : walletSection (w :: ws) ++ r =
        w.length :: (w ++ (walletSection ws ++ r)) := by
      simp [walletSection]
    have h8 := getUint8_append_cons p w.length (w ++ (walletSection ws ++ r))
    have hslice :
        ((p ++ (w.length :: (w ++ (walletSection ws ++ r)))).drop
            (p.length + 1)).take w.length = w := by
      have hd : (p ++ (w.length :: (w ++ (walletSection ws ++ r)))).drop
          (p.length + 1) = w ++ (walletSection ws ++ r) := by
        simp
      rw [hd, List.take_left]
    have hoff : p.length + 1 + w.length = (p ++ w.length :: w).length := by
      simp; omega
    have hrec := ih (p ++ w.length :: w)
    rw [show (p ++ w.length :: w) ++ (walletSection ws ++ r) =
        p ++ (w.length :: (w ++ (walletSection ws ++ r))) by simp] at hrec
    simp only [List.length_cons, hsec]
    rw [readWallets, h8]
    simp only [hslice, hoff, hrec]
    have hlen : (walletSection (w :: ws)).length =
        1 + w.length + (walletSection ws).length := by
      simp [walletSection]; omega
    simp [hlen]
    omega

theorem readTrades_record (p S : List Nat) (wallets : List String)
    (t : WireTrade) (c : Nat)
    (hwi : t.walletIndex < 2^32) (ham : t.amountBits < 2^32)
    (hpr : t.priceUsdBits < 2^32) (hvo : t.volumeBits < 2^32)
    (hts : t.timeSeconds < 2^32) :
    readTrades (p ++ (encodeTrade t ++ S)) wallets p.length (c + 1) =
      match readTrades (p ++ (encodeTrade t ++ S)) wallets (p.length + 21) c with
      | none => none
      | some rest =>
        some ({ wallet := wallets[t.walletIndex]?,
                amount := f32FromBits t.amountBits,
                priceUsd := f32FromBits t.priceUsdBits,
                volume := f32FromBits t.volumeBits,
                type := if t.typeCode == 0 then "buy" else "sell",
                time := ((t.timeSeconds * 1000 : Nat) : Rat) } :: rest) := by
  have hdrop : ∀ k : Nat,
      (p ++ (encodeTrade t ++ S)).drop (p.length + k) = (encodeTrade t ++ S).drop k :=
    fun k => drop_append_len p _ k
  have hread : ∀ k : Nat,
      getUint32LE (p ++ (encodeTrade t ++ S)) (p.length + k) =
        getUint32LE ((encodeTrade t ++ S).drop k) 0 := by
    intro k; rw [getUint32LE_eq_drop, hdrop k]
  have h0 : getUint32LE (p ++ (encodeTrade t ++ S)) p.length = some t.walletIndex := by
    have h := hread 0
    rw [Nat.add_zero] at h
    rw [h]
    simp only [encodeTrade, encodeU32LE, List.cons_append, List.nil_append,
      List.drop_zero]
    simp only [getUint32LE, List.getElem?_cons_zero, List.getElem?_cons_succ]
    congr 1
    omega
  have h4 : getUint32LE (p ++ (encodeTrade t ++ S)) (p.length + 4) =
      some t.amountBits := by
    rw [hread 4]
    simp only [encodeTrade, encodeU32LE, List.cons_append, List.nil_append,
      List.drop_succ_cons, List.drop_zero]
    simp only [getUint32LE, List.getElem?_cons_zero, List.getElem?_cons_succ]
    congr 1
    omega
  have h8 : getUint32LE (p ++ (encodeTrade t ++ S)) (p.length + 8) =
      some t.priceUsdBits := by
    rw [hread 8]
    simp only [encodeTrade, encodeU32LE, List.cons_append, List.nil_append,
      List.drop_succ_cons, List.drop_zero]
    simp only [getUint32LE, List.getElem?_cons_zero, List.getElem?_cons_succ]
    congr 1
    omega
  have h12 : getUint32LE (p ++ (encodeTrade t ++ S)) (p.length + 12) =
      some t.volumeBits := by
    rw [hread 12]
    simp only [encodeTrade, encodeU32LE, List.cons_append, List.nil_append,
      List.drop_succ_cons, List.drop_zero]
    simp only [getUint32LE, List.getElem?_cons_zero, List.getElem?_cons_succ]
    congr 1
    omega
  have h16 : getUint8 (p ++ (encodeTrade t ++ S)) (p.length + 16) =
      some t.typeCode := by
    rw [getUint8_eq_drop, hdrop 16]
    simp only [encodeTrade, encodeU32LE, List.cons_append, List.nil_append,
      List.drop_succ_cons, List.drop_zero]
    simp [getUint8]
  have h17 : getUint32LE (p ++ (encodeTrade t ++ S)) (p.length + 17) =
      some t.timeSeconds := by
    rw [hread 17]
    simp only [encodeTrade, encodeU32LE, List.cons_append, List.nil_append,
      List.drop_succ_cons, List.drop_zero]
    simp only [getUint32LE, List.getElem?_cons_zero, List.getElem?_cons_succ]
    congr 1
    omega
  rw [readTrades]
  simp only [getFloat32LE]
  rw [h0, h4, h8, h12, h16, h17]
  simp [Option.map]

theorem readTrades_encode (ts : List WireTrade) (wallets : List String)
    (r : List Nat)
    (hf : ∀ t ∈ ts, t.walletIndex < 2^32 ∧ t.amountBits < 2^32 ∧
      t.priceUsdBits < 2^32 ∧ t.volumeBits < 2^32 ∧ t.timeSeconds < 2^32) :
    ∀ p : List Nat,
      readTrades (p ++ (tradeSection ts ++ r)) wallets p.length ts.length =
        some (ts.map (fun t =>
          { wallet := wallets[t.walletIndex]?,
            amount := f32FromBits t.amountBits,
            priceUsd := f32FromBits t.priceUsdBits,
            volume := f32FromBits t.volumeBits,
            type := if t.typeCode == 0 then "buy" else "sell",
            time := ((t.timeSeconds * 1000 : Nat) : Rat) })) := by
  induction ts with
  | nil => intro p; simp [readTrades]
  | cons t ts ih =>
    intro p
    obtain ⟨hwi, ham, hpr, hvo, hts⟩ := hf t (List.mem_cons_self t ts)
    have hf' : ∀ u ∈ ts, u.walletIndex < 2^32 ∧ u.amountBits < 2^32 ∧
        u.priceUsdBits < 2^32 ∧ u.volumeBits < 2^32 ∧ u.timeSeconds < 2^32 :=
      fun u hu => hf u (List.mem_cons_of_mem t hu)
    have hsec : tradeSection (t :: ts) ++ r =
        encodeTrade t ++ (tradeSection ts ++ r) := by
      simp [tradeSection]
    have hrec := ih hf' (p ++ encodeTrade t)
    rw [show (p ++ encodeTrade t) ++ (tradeSection ts ++ r) =
        p ++ (encodeTrade t ++ (tradeSection ts ++ r)) by simp] at hrec
    have hlen : (p ++ encodeTrade t).length = p.length + 21 := by
      simp [encodeTrade, encodeU32LE]
    rw [hlen] at hrec
    simp only [List.length_cons, hsec]
    rw [readTrades_record p (tradeSection ts ++ r) wallets t ts.length
      hwi ham hpr hvo hts]
    rw [hrec]
    simp

theorem decodeBinaryEvents_encodeWire (wallets : List (List Nat))
    (trades : List WireTrade)
    (hwlen : ∀ w ∈ wallets, w.length < 2^8)
    (hwbytes : ∀ w ∈ wallets, ∀ b ∈ w, b < 2^8)
    (hwc : wallets.length < 2^32)
    (htc : trades.length < 2^32)
    (hfld : ∀ t ∈ trades, t.walletIndex < wallets.length ∧ t.amountBits < 2^32 ∧
      t.priceUsdBits < 2^32 ∧ t.volumeBits < 2^32 ∧ t.typeCode < 2^8 ∧
      t.timeSeconds < 2^32) :
    decodeBinaryEvents (encodeWire wallets trades) =
      Except.ok (trades.map (decodedEvent wallets)) := by
  have h1 : getUint32LE (encodeWire wallets trades) 0 = some wallets.length := by
    rw [encodeWire, List.append_assoc, List.append_assoc, getUint32LE_encodeU32LE]
    congr 1
    omega
  have h2 : readWallets (encodeWire wallets trades) 4 wallets.length =
      some (wallets.map utf8DecodeStr, 4 + (walletSection wallets).length) := by
    have h := readWallets_encode wallets
      (encodeU32LE trades.length ++ tradeSection trades)
      (encodeU32LE wallets.length)
    rw [show (encodeU32LE wallets.length).length = 4 from rfl] at h
    rw [encodeWire]
    simp only [List.append_assoc]
    exact h
  have h3 : getUint32LE (encodeWire wallets trades)
      (4 + (walletSection wallets).length) = some trades.length := by
    have hassoc : encodeWire wallets trades =
        (encodeU32LE wallets.length ++ walletSection wallets) ++
          (encodeU32LE trades.length ++ tradeSection trades) := by
      simp [encodeWire]
    rw [hassoc, getUint32LE_eq_drop]
    rw [show 4 + (walletSection wallets).length =
        (encodeU32LE wallets.length ++ walletSection wallets).length + 0 by
      simp [encodeU32LE] <;> omega]
    rw [drop_append_len, List.drop_zero, getUint32LE_encodeU32LE]
    congr 1
    omega
  have hf' : ∀ t ∈ trades, t.walletIndex < 2^32 ∧ t.amountBits < 2^32 ∧
      t.priceUsdBits < 2^32 ∧ t.volumeBits < 2^32 ∧ t.timeSeconds < 2^32 := by
    intro t ht
    obtain ⟨hwi, ham, hpr, hvo, _, hts⟩ := hfld t ht
    exact ⟨lt_trans hwi hwc, ham, hpr, hvo, hts⟩
  have h4 : readTrades (encodeWire wallets trades) (wallets.map utf8DecodeStr)
      (4 + (walletSection wallets).length + 4) trades.length =
      some (trades.map (decodedEvent wallets)) := by
    have h := readTrades_encode trades (wallets.map utf8DecodeStr) [] hf'
      ((encodeU32LE wallets.length ++ walletSection wallets) ++
        encodeU32LE trades.length)
    rw [List.append_nil] at h
    rw [show ((encodeU32LE wallets.length ++ walletSection wallets) ++
        encodeU32LE trades.length).length =
        4 + (walletSection wallets).length + 4 by simp [encodeU32LE]; omega] at h
    rw [show ((encodeU32LE wallets.length ++ walletSection wallets) ++
        encodeU32LE trades.length) ++ tradeSection trades =
        encodeWire wallets trades by simp [encodeWire]] at h
    rw [h]
    simp [decodedEvent]
  simp only [decodeBinaryEvents, h1, h2, h3, h4]

/-! ### Decoder claims -/

/-- C3: for every well-formed buffer of the wire layout (`u32 LE` wallet
count; wallet entries of `u8 length` + UTF-8 bytes; `u32 LE` trade count;
21-byte records of `u32 LE walletIndex`, three `f32 LE` fields, `u8
typeCode` with 0 = buy and anything else = sell, `u32 LE timeSeconds`), the
decoder returns the trades in order, with `timeMs = timeSeconds × 1000` and
the wallet resolved by index into the wallet table. -/
theorem decodeBinaryEvents_wire_roundtrip (wallets : List (List Nat))
    (trades : List WireTrade)
    (hwlen : ∀ w ∈ wallets, w.length < 2^8)
    (hwbytes : ∀ w ∈ wallets, ∀ b ∈ w, b < 2^8)
    (hwc : wallets.length < 2^32)
    (htc : trades.length < 2^32)
    (hfld : ∀ t ∈ trades, t.walletIndex < wallets.length ∧ t.amountBits < 2^32 ∧
      t.priceUsdBits < 2^32 ∧ t.volumeBits < 2^32 ∧ t.typeCode < 2^8 ∧
      t.timeSeconds < 2^32) :
    decodeBinaryEvents (encodeWire wallets trades) =
      Except.ok (trades.map (decodedEvent wallets)) :=
  decodeBinaryEvents_encodeWire wallets trades hwlen hwbytes hwc htc hfld

/-- Wallet table `["A", "BB"]` of the spec's round-trip test vector. -/
def c3wallets : List (List Nat) := [[65], [66, 66]]

/-- Trades `[(0,1.0,2.5,10.0,buy,1000), (1,3.0,2.6,5.0,sell,1001)]` of the
spec's round-trip test vector, f32 fields as IEEE-754 binary32 patterns
(`1.0 = 0x3F800000`, `2.5 = 0x40200000`, `10.0 = 0x41200000`,
`3.0 = 0x40400000`, `2.6 ≈ 0x40266666`, `5.0 = 0x40A00000`). -/
def c3trades : List WireTrade :=
  [⟨0, 0x3F800000, 0x40200000, 0x41200000, 0, 1000⟩,
   ⟨1, 0x40400000, 0x40266666, 0x40A00000, 1, 1001⟩]

/-- C3 witness: the spec's concrete round trip — encoding wallets
`["A","BB"]` and the two trades and decoding yields two events with `timeMs`
1000000 and 1001000 and wallets `"A"` and `"BB"`. -/
theorem decodeBinaryEvents_wire_roundtrip_witness :
    decodeBinaryEvents (encodeWire c3wallets c3trades) =
      Except.ok (c3trades.map (decodedEvent c3wallets)) ∧
    (c3trades.map (decodedEvent c3wallets)).map ProcessedEvent.time =
      [1000000, 1001000] ∧
    (c3trades.map (decodedEvent c3wallets)).map ProcessedEvent.wallet =
      [some "A", some "BB"] :=
  ⟨decodeBinaryEvents_wire_roundtrip c3wallets c3trades (by decide) (by decide)
      (by decide) (by decide) (by decide),
   by decide, by decide⟩

/-- A 29-byte buffer declaring zero wallets and one trade whose
`walletIndex = 0` is out of range (`0 ≥ walletCount = 0`): `u32 LE 0`, `u32
LE 1`, then one record `(walletIndex 0, 1.0, 2.5, 10.0, buy, 1000)`. -/
def c4buf : List Nat :=
  encodeWire [] [⟨0, 0x3F800000, 0x40200000, 0x41200000, 0, 1000⟩]

/-- C4 (code bug): on a trade record whose `walletIndex` is out of range the
decoder does NOT reject — it returns a single event whose `wallet` is
`undefined` (`none`), contradicting the declared `ProcessedEvent.wallet:
string` interface.  (The truncated-buffer half of the claim does hold: see
the C7 theorems for the `RangeError` behaviour of short buffers.) -/
theorem decode_badWalletIndex_noError :
    (decodeBinaryEvents c4buf).toOption.map
        (fun evs => (evs.length, evs.map ProcessedEvent.wallet,
          evs.map ProcessedEvent.type, evs.map ProcessedEvent.time)) =
      some (1, [none], ["buy"], [1000000]) := by decide

/-- C7 counterexample: decoding the empty buffer does not return an empty
event sequence — the very first `u32` read is out of bounds and the call
rejects with a `RangeError`. -/
theorem decode_empty_cex : decodeBinaryEvents [] ≠ Except.ok [] := by decide

/-- C7 amended: decoding an empty (zero-byte) buffer rejects with a range
error (the `u32 walletCount` read is out of bounds); the smallest buffer
that decodes to an empty sequence is the 8-byte one declaring zero wallets
and zero trades. -/
theorem decode_empty_amended :
    decodeBinaryEvents [] = Except.error "RangeError" ∧
    decodeBinaryEvents (encodeWire [] []) = Except.ok [] := by
  exact ⟨by decide, by decide⟩

/-! ### Reconnect backoff (`Datastream.reconnect`, spec §4.1/§8)

`reconnect()` computes
`delay = Math.min(reconnectDelay * Math.pow(2, attempts), reconnectDelayMax)`,
`jitter = delay * randomizationFactor` and schedules the retry after
`delay + Math.random() * jitter`.  The model works over `Rat` with the
uniform draw `Math.random() ∈ [0,1)` passed explicitly; IEEE-754 rounding of
the products is outside the model. -/

/-- The backoff delay before jitter, as computed by `reconnect()`. -/
def backoffDelay (base max : Rat) (attempts : Nat) : Rat :=
  min (base * 2 ^ attempts) max

/-- The actual scheduled wait: `delay + Math.random() * jitter` with
`jitter = delay * randomizationFactor` and `r` the uniform draw. -/
def scheduledWait (base max factor r : Rat) (attempts : Nat) : Rat :=
  backoffDelay base max attempts + r * (backoffDelay base max attempts * factor)

/-- C6: for every attempt count `n`, the delay before jitter is
`min(baseDelay × 2^n, maxDelay)`, and for every value of the uniform draw
`r ∈ [0,1)` the scheduled wait lies in `[delay, delay × (1 + factor)]`
(for nonnegative configuration values, as the defaults 2500/4500/0.5 are). -/
theorem backoff_delay_interval (base max factor r : Rat) (n : Nat)
    (hb : 0 ≤ base) (hm : 0 ≤ max) (hf : 0 ≤ factor)
    (hr0 : 0 ≤ r) (hr1 : r < 1) :
    backoffDelay base max n = min (base * 2 ^ n) max ∧
    backoffDelay base max n ≤ scheduledWait base max factor r n ∧
    scheduledWait base max factor r n ≤ backoffDelay base max n * (1 + factor) := by
  have hd : 0 ≤ backoffDelay base max n := by
    have h2 : (0:Rat) ≤ base * 2 ^ n := by positivity
    exact le_min h2 hm
  refine ⟨rfl, ?_, ?_⟩
  · have : 0 ≤ r * (backoffDelay base max n * factor) := by positivity
    unfold scheduledWait
    linarith
  · have hjit : 0 ≤ backoffDelay base max n * factor := by positivity
    have : r * (backoffDelay base max n * factor) ≤
        1 * (backoffDelay base max n * factor) :=
      mul_le_mul_of_nonneg_right (le_of_lt hr1) hjit
    unfold scheduledWait
    nlinarith

/-- C6 witness: the default configuration `base = 2500`, `max = 4500`,
`factor = 0.5` at attempt 1 with draw `r = 1/3`: the pre-jitter delay is
`min(2500·2, 4500) = 4500` and the wait lies in `[4500, 6750]`. -/
theorem backoff_delay_interval_witness :
    backoffDelay 2500 4500 1 = min (2500 * 2 ^ 1) 4500 ∧
    backoffDelay 2500 4500 1 ≤ scheduledWait 2500 4500 (1/2) (1/3) 1 ∧
    scheduledWait 2500 4500 (1/2) (1/3) 1 ≤ backoffDelay 2500 4500 1 * (1 + 1/2) :=
  backoff_delay_interval 2500 4500 (1/2) (1/3) 1 (by norm_num) (by norm_num)
    (by norm_num) (by norm_num) (by norm_num)

/-! ### The `Datastream` client (`datastream.ts`)

State-machine embedding of the in-process (`useWorker = false`) variant.
JavaScript `Set`s become duplicate-free lists in insertion order; a channel
is `Option Nat` — `none` for a `null` socket field, `some rs` for a socket
whose `readyState` is `rs`.  The lifecycle `EventEmitter` notifications
(`connected`/`disconnected`/`reconnecting`/`error`) are elided; the outputs
the claims are about — outbound join/leave frames, inbound message
deliveries keyed by emit room, and scheduled reconnect timers — are modelled
explicitly.  A scheduled `setTimeout` reconnect callback is counted in
`pendingReconnects`; the source stores no handle to such a timer and never
calls `clearTimeout` on one, which the model mirrors by `disconnect` leaving
the counter untouched. -/

/-- `WebSocket.OPEN`. -/
def wsOPEN : Nat := 1

/-- The two socket channels of the client. -/
inductive SocketType
  | main
  | transaction
  deriving DecidableEq, Repr

/-- `sock !== null && sock.readyState === WebSocket.OPEN`. -/
def socketOpen : Option Nat → Bool
  | some rs => rs == wsOPEN
  | none => false

/-- The mutable state of a `Datastream` instance (in-process variant). -/
structure DatastreamState where
  socket : Option Nat
  transactionSocket : Option Nat
  subscribedRooms : List String
  transactions : List String
  reconnectAttempts : Nat
  autoReconnect : Bool
  isConnecting : Bool
  /-- Number of `setTimeout` reconnect callbacks scheduled by `reconnect()`
  and not yet fired.  The source discards the timer handle, so nothing can
  decrement this except the timer firing. -/
  pendingReconnects : Nat
  deriving DecidableEq, Repr

/-- `Set.add`: append if absent (JavaScript insertion order). -/
def setAdd (s : List String) (x : String) : List String :=
  if x ∈ s then s else s ++ [x]

/-- Scan for `pat` as a contiguous run of `l`. -/
def listInfix (pat : List Char) : List Char → Bool
  | [] => pat.isPrefixOf []
  | c :: rest => pat.isPrefixOf (c :: rest) || listInfix pat rest

/-- `room.includes(pat)`. -/
def containsSubstr (room pat : String) : Bool :=
  listInfix pat.toList room.toList

/-- The channel-selection rule: a room key containing the substring
`"transaction"` routes to the transaction channel, every other room to the
main channel. -/
def roomSocketType (room : String) : SocketType :=
  if containsSubstr room "transaction" then .transaction else .main

/-- The socket field backing a channel. -/
def channelSocket (s : DatastreamState) : SocketType → Option Nat
  | .main => s.socket
  | .transaction => s.transactionSocket

/-- An outbound control frame (`{"type":"join"|"leave","room":...}`). -/
inductive Frame
  | join (room : String)
  | leave (room : String)
  deriving DecidableEq, Repr

/-- `resubscribeToRooms()`: when both the main and the transaction socket
are non-null and OPEN, send one join frame per tracked room on the channel
the routing rule resolves; otherwise do nothing. -/
def resubscribeToRooms (s : DatastreamState) : List (SocketType × Frame) :=
  if socketOpen s.socket && socketOpen s.transactionSocket then
    s.subscribedRooms.map (fun room => (roomSocketType room, Frame.join room))
  else []

/-- `unsubscribe(room)` (in-process branch): delete the room from the
tracked set, then send a leave frame if the room's resolved channel is
currently open — the source checks the socket regardless of whether the
room was tracked. -/
def unsubscribe (s : DatastreamState) (room : String) :
    DatastreamState × List (SocketType × Frame) :=
  let s1 := { s with subscribedRooms := s.subscribedRooms.erase room }
  if socketOpen (channelSocket s1 (roomSocketType room)) then
    (s1, [(roomSocketType room, Frame.leave room)])
  else (s1, [])

/-- The fields of an inbound `message.data` payload that the client
inspects: `tx` (dedup) and `token` (derived price routing).  `none` models
an absent field. -/
structure MsgData where
  tx : Option String
  token : Option String
  deriving DecidableEq, Repr

/-- JavaScript truthiness of `message.data?.tx` at string granularity: a
present, non-empty string is truthy; an absent field or the empty string is
falsy. -/
def txTruthy : Option String → Bool
  | some t => t != ""
  | none => false

/-- String interpolation of `message.data.token` into
`price-by-token:${token}`: an `undefined` field interpolates as the literal
text `"undefined"`. -/
def tokenText : Option String → String
  | some t => t
  | none => "undefined"

/-- The `socket.onmessage` handler of `setupSocketListeners` for a parsed
frame of type `message`: dedup first (`message.data?.tx` truthy and already
seen → return with no emit; truthy and unseen → add to the set), then emit
under the derived `price-by-token:<token>` key when the room contains
`"price:"`, then emit under the literal room key.  Returns the new state
and the list of (emit key, payload) deliveries. -/
def handleSocketMessage (s : DatastreamState) (room : String) (data : MsgData) :
    DatastreamState × List (String × MsgData) :=
  let emits := (if containsSubstr room "price:" then
      [("price-by-token:" ++ tokenText data.token, data)] else []) ++
    [(room, data)]
  match data.tx with
  | some t =>
    if t != "" then
      if t ∈ s.transactions then (s, [])
      else ({ s with transactions := setAdd s.transactions t }, emits)
    else (s, emits)
  | none => (s, emits)

/-- Number of inbound messages of a session that are delivered (not dropped
by the dedup filter) while carrying `tx = some t`, threading the handler
state through the message sequence. -/
def deliveredTxCount (s : DatastreamState)
    (msgs : List (String × MsgData)) (t : String) : Nat :=
  match msgs with
  | [] => 0
  | (room, d) :: rest =>
    let out := handleSocketMessage s room d
    (if d.tx = some t ∧ out.2 ≠ [] then 1 else 0) +
      deliveredTxCount out.1 rest t

/-- `disconnect()` (in-process branch): close and null both sockets, clear
the tracked-room set and the dedup set.  `isConnecting`,
`reconnectAttempts` and — decisively for C5 — `pendingReconnects` are not
touched: the source keeps no handle to a scheduled reconnect timer and
never calls `clearTimeout`. -/
def disconnect (s : DatastreamState) : DatastreamState :=
  { s with socket := none, transactionSocket := none,
           subscribedRooms := [], transactions := [] }

/-- `reconnect()`: bail out unless `autoReconnect`; otherwise schedule a
`setTimeout` callback (the computed wait is `scheduledWait`; its length is
irrelevant to the claims about cancellation). -/
def reconnectStep (s : DatastreamState) : DatastreamState :=
  if !s.autoReconnect then s
  else { s with pendingReconnects := s.pendingReconnects + 1 }

/-- The `socket.onclose` handler of `setupSocketListeners`: null the closed
channel's field, then call `reconnect()` if `autoReconnect`. -/
def handleSocketClose (s : DatastreamState) (t : SocketType) : DatastreamState :=
  let s1 := match t with
    | .main => { s with socket := none }
    | .transaction => { s with transactionSocket := none }
  if s1.autoReconnect then reconnectStep s1 else s1

/-- `connect()` up to its first suspension: return with no attempt if both
socket fields are non-null or a connect is already in flight; otherwise set
`isConnecting` and start opening both channel sockets.  The `Bool` reports
whether a fresh connection attempt was initiated. -/
def connectStep (s : DatastreamState) : DatastreamState × Bool :=
  if s.socket.isSome && s.transactionSocket.isSome then (s, false)
  else if s.isConnecting then (s, false)
  else ({ s with isConnecting := true }, true)

/-- A scheduled reconnect timer firing: `this.reconnectAttempts++` then
`this.connect()`. -/
def timerFire (s : DatastreamState) : DatastreamState × Bool :=
  connectStep { s with pendingReconnects := s.pendingReconnects - 1,
                       reconnectAttempts := s.reconnectAttempts + 1 }

/-! ### Router and dedup claims -/

/-- A session state with both channels open, nothing tracked and nothing
seen: the baseline for concrete router scenarios. -/
def openState : DatastreamState :=
  { socket := some wsOPEN, transactionSocket := some wsOPEN,
    subscribedRooms := [], transactions := [], reconnectAttempts := 0,
    autoReconnect := true, isConnecting := false, pendingReconnects := 0 }

/-- `openState` tracking one main-channel and one transaction-channel room. -/
def twoRoomState : DatastreamState :=
  { openState with subscribedRooms := ["price:ABC", "transaction:ABC"] }

theorem count_beq_bridge (x : SocketType × Frame) (l : List (SocketType × Frame)) :
    l.count x = @List.count _ instBEqOfDecidableEq x l := by
  induction l with
  | nil => rfl
  | cons y ys ih =>
    rw [List.count_cons, @List.count_cons _ instBEqOfDecidableEq, ih]
    by_cases h : y = x <;> simp [h, instBEqOfDecidableEq]

/-- C2: resubscription fires only when both channels are open, and when it
fires it sends exactly one join frame per room of the full tracked set,
each on the channel resolved by the routing rule — never a partial
subset.  (The tracked set is a JavaScript `Set`, hence duplicate-free.) -/
theorem resubscribe_full_set (s : DatastreamState)
    (hnd : s.subscribedRooms.Nodup) :
    ((socketOpen s.socket = false ∨ socketOpen s.transactionSocket = false) →
      resubscribeToRooms s = []) ∧
    (socketOpen s.socket = true → socketOpen s.transactionSocket = true →
      (∀ room ∈ s.subscribedRooms,
        (resubscribeToRooms s).count (roomSocketType room, Frame.join room) = 1) ∧
      (∀ ch f, (ch, f) ∈ resubscribeToRooms s →
        ∃ room ∈ s.subscribedRooms,
          f = Frame.join room ∧ ch = roomSocketType room)) := by
  have hinj : Function.Injective
      (fun room => (roomSocketType room, Frame.join room)) := by
    intro a b hab
    have h2 : Frame.join a = Frame.join b := congrArg Prod.snd hab
    exact Frame.join.inj h2
  constructor
  · intro h
    unfold resubscribeToRooms
    rcases h with h | h <;> simp [h]
  · intro h1 h2
    constructor
    · intro room hroom
      unfold resubscribeToRooms
      rw [if_pos (by rw [h1, h2]; rfl)]
      have hc := List.count_map_of_injective s.subscribedRooms
        (fun room => (roomSocketType room, Frame.join room)) hinj room
      rw [count_beq_bridge]
      exact hc.trans (List.count_eq_one_of_mem hnd hroom)
    · intro ch f hmem
      unfold resubscribeToRooms at hmem
      rw [if_pos (by rw [h1, h2]; rfl)] at hmem
      simp only [List.mem_map] at hmem
      obtain ⟨room, hroom, heq⟩ := hmem
      refine ⟨room, hroom, ?_, ?_⟩
      · exact (congrArg Prod.snd heq).symm
      · exact (congrArg Prod.fst heq).symm

/-- C2 witness: in the concrete two-room state with both channels open,
resubscription emits exactly one join frame for `price:ABC` (on the main
channel) and exactly one for `transaction:ABC` (on the transaction
channel). -/
theorem resubscribe_full_set_witness :
    (resubscribeToRooms twoRoomState).count
        (roomSocketType "price:ABC", Frame.join "price:ABC") = 1 ∧
    (resubscribeToRooms twoRoomState).count
        (roomSocketType "transaction:ABC", Frame.join "transaction:ABC") = 1 := by
  have h := resubscribe_full_set twoRoomState (by decide)
  have hopen := h.2 (by decide) (by decide)
  exact ⟨hopen.1 "price:ABC" (by decide), hopen.1 "transaction:ABC" (by decide)⟩

/-- C8 counterexample: unsubscribing a room that is NOT tracked is not a
no-op frame-wise — with the main channel open, `unsubscribe "foo"` on a
state with an empty tracked set still sends a leave frame for `foo`. -/
theorem unsubscribe_untracked_cex :
    openState.subscribedRooms = [] ∧
    (unsubscribe openState "foo").2 = [(SocketType.main, Frame.leave "foo")] := by
  decide

/-- C8 amended: `unsubscribe(room)` removes the room from the tracked set
(a no-op on the set when untracked, and with a duplicate-free set the room
is gone afterwards), touches nothing else of the state, and sends a leave
frame on the room's resolved channel whenever that channel is currently
open — tracked or not. -/
theorem unsubscribe_spec (s : DatastreamState) (room : String) :
    (unsubscribe s room).1.subscribedRooms = s.subscribedRooms.erase room ∧
    ((unsubscribe s room).1.socket = s.socket ∧
      (unsubscribe s room).1.transactionSocket = s.transactionSocket ∧
      (unsubscribe s room).1.transactions = s.transactions) ∧
    (room ∉ s.subscribedRooms → (unsubscribe s room).1 = s) ∧
    (s.subscribedRooms.Nodup → room ∉ (unsubscribe s room).1.subscribedRooms) ∧
    (unsubscribe s room).2 =
      (if socketOpen (channelSocket s (roomSocketType room)) then
        [(roomSocketType room, Frame.leave room)]
      else []) := by
  have hch : ∀ ch, channelSocket
      { s with subscribedRooms := s.subscribedRooms.erase room } ch =
      channelSocket s ch := by
    intro ch; cases ch <;> rfl
  unfold unsubscribe
  dsimp only
  refine ⟨?_, ?_, ?_, ?_, ?_⟩
  · split <;> rfl
  · split <;> exact ⟨rfl, rfl, rfl⟩
  · intro hnot
    have herase : s.subscribedRooms.erase room = s.subscribedRooms :=
      List.erase_of_not_mem hnot
    split <;> simp [herase]
  · intro hnd
    have : room ∉ s.subscribedRooms.erase room := by
      intro hc
      exact ((List.Nodup.mem_erase_iff hnd).mp hc).1 rfl
    split <;> simpa using this
  · rw [hch]
    split <;> simp_all

/-- C8 witness: concrete instances of the amended behaviour — on the
two-room open state, unsubscribing the untracked `foo` leaves the state's
room set unchanged yet sends a leave frame, and unsubscribing the tracked
`price:ABC` removes it. -/
theorem unsubscribe_spec_witness :
    (unsubscribe twoRoomState "foo").1.subscribedRooms =
      ["price:ABC", "transaction:ABC"] ∧
    (unsubscribe twoRoomState "price:ABC").1.subscribedRooms =
      ["transaction:ABC"] ∧
    (unsubscribe twoRoomState "price:ABC").2 =
      [(SocketType.main, Frame.leave "price:ABC")] := by
  refine ⟨?_, ?_, ?_⟩
  · rw [(unsubscribe_spec twoRoomState "foo").1]; decide
  · rw [(unsubscribe_spec twoRoomState "price:ABC").1]; decide
  · rw [(unsubscribe_spec twoRoomState "price:ABC").2.2.2.2]; decide

/-- C9 counterexample: a message on room `price:TOKEN_A` whose payload has
`token = "TOKEN_A"` but whose `tx` is already in the dedup set is dropped
outright — it is delivered to neither the literal room key nor the derived
`price-by-token:TOKEN_A` key, so the claim's unconditional "every inbound
message … is delivered both …" fails. -/
theorem derived_price_dropped_cex :
    (handleSocketMessage { openState with transactions := ["t1"] }
        "price:TOKEN_A" ⟨some "t1", some "TOKEN_A"⟩).2 = [] := by decide

/-- C9 amended: every inbound message on a room containing `price:` whose
payload carries `token = tok`, and which is not dropped by the dedup filter
(its `tx` absent, empty, or unseen), is delivered both under the derived
key `price-by-token:tok` and under the literal room key. -/
theorem derived_price_routing (s : DatastreamState) (room : String)
    (d : MsgData) (tok : String)
    (hroom : containsSubstr room "price:" = true)
    (htok : d.token = some tok)
    (hnodrop : ∀ t, d.tx = some t → t ≠ "" → t ∉ s.transactions) :
    (handleSocketMessage s room d).2 =
      [("price-by-token:" ++ tok, d), (room, d)] := by
  unfold handleSocketMessage
  cases hd : d.tx with
  | none => simp [hroom, htok, tokenText]
  | some t =>
    by_cases he : t = ""
    · subst he
      simp [hroom, htok, tokenText, txTruthy]
    · have hnot : t ∉ s.transactions := hnodrop t hd he
      simp [hroom, htok, he, hnot, tokenText]

/-- C9 witness: on the open baseline state, a message on `price:TOKEN_A`
with `token = "TOKEN_A"` and no `tx` is delivered to both
`price-by-token:TOKEN_A` and `price:TOKEN_A`, in that order. -/
theorem derived_price_routing_witness :
    (handleSocketMessage openState "price:TOKEN_A"
        ⟨none, some "TOKEN_A"⟩).2 =
      [("price-by-token:TOKEN_A", ⟨none, some "TOKEN_A"⟩),
       ("price:TOKEN_A", ⟨none, some "TOKEN_A"⟩)] :=
  derived_price_routing openState "price:TOKEN_A" ⟨none, some "TOKEN_A"⟩
    "TOKEN_A" (by decide) rfl (by intro t ht he; simp at ht)

theorem mem_setAdd {s : List String} {x y : String} :
    y ∈ setAdd s x ↔ y = x ∨ y ∈ s := by
  unfold setAdd
  split
  · rename_i hx
    constructor
    · exact fun h => Or.inr h
    · rintro (rfl | h)
      · exact hx
      · exact h
  · simp [or_comm]

theorem deliveredTxCount_eq_zero_of_mem (t : String) (ht : t ≠ "") :
    ∀ (msgs : List (String × MsgData)) (s : DatastreamState),
      t ∈ s.transactions → deliveredTxCount s msgs t = 0 := by
  intro msgs
  induction msgs with
  | nil => intro s _; rfl
  | cons m rest ih =>
    intro s hmem
    obtain ⟨room, dtx, dtok⟩ := m
    cases dtx with
    | none =>
      simp [deliveredTxCount, handleSocketMessage]
      exact ih s hmem
    | some u =>
      by_cases hu : u = ""
      · subst hu
        have hne : ("" : String) ≠ t := fun h => ht h.symm
        simp [deliveredTxCount, handleSocketMessage, hne]
        exact ih s hmem
      · by_cases hm : u ∈ s.transactions
        · simp [deliveredTxCount, handleSocketMessage, hu, hm]
          exact ih s hmem
        · have hut : u ≠ t := fun h => hm (h ▸ hmem)
          simp [deliveredTxCount, handleSocketMessage, hu, hm, hut]
          exact ih _ (mem_setAdd.mpr (Or.inr hmem))

theorem deliveredTxCount_le_one (t : String) (ht : t ≠ "") :
    ∀ (msgs : List (String × MsgData)) (s : DatastreamState),
      t ∉ s.transactions → deliveredTxCount s msgs t ≤ 1 := by
  intro msgs
  induction msgs with
  | nil => intro s _; exact Nat.zero_le 1
  | cons m rest ih =>
    intro s h0
    obtain ⟨room, dtx, dtok⟩ := m
    cases dtx with
    | none =>
      simp [deliveredTxCount, handleSocketMessage]
      exact ih s h0
    | some u =>
      by_cases hut : u = t
    -- the head message carries tx = t: it is delivered once, t enters the
    -- dedup set, and every later message with tx = t is dropped
      · subst hut
        have hz := deliveredTxCount_eq_zero_of_mem u ht rest
          { s with transactions := setAdd s.transactions u }
          (mem_setAdd.mpr (Or.inl rfl))
        simp [deliveredTxCount, handleSocketMessage, ht, h0, hz]
      · by_cases hu : u = ""
        · subst hu
          have hne : ("" : String) ≠ t := fun h => ht h.symm
          simp [deliveredTxCount, handleSocketMessage, hne]
          exact ih s h0
        · by_cases hm : u ∈ s.transactions
          · simp [deliveredTxCount, handleSocketMessage, hu, hm, hut]
            exact ih s h0
          · have hnotin : t ∉ setAdd s.transactions u := by
              rw [mem_setAdd]
              rintro (rfl | h)
              · exact hut rfl
              · exact h0 h
            simp [deliveredTxCount, handleSocketMessage, hu, hm, hut]
            exact ih _ hnotin

/-- C1 counterexample: the dedup check tests JavaScript truthiness of
`message.data?.tx`, and the empty string is falsy — so two messages whose
payloads both carry the tx field with value `""` are BOTH delivered: the
claim's "at most one listener invocation per `tx` value carried by a
payload" fails at the empty tx value. -/
theorem dedup_empty_tx_cex :
    deliveredTxCount openState
      [("r", ⟨some "", none⟩), ("r", ⟨some "", none⟩)] "" = 2 := by decide

/-- C1 amended: for every NON-EMPTY tx value `t`, a session starting with
`t` unseen delivers at most one message carrying `tx = t`; a message whose
truthy tx is already in the set is dropped silently (same state, no emit);
a message whose truthy tx is unseen inserts it and is delivered; and
`disconnect()` empties the dedup set.  (Messages whose `tx` is the empty
string bypass the filter entirely — the truthiness check treats `""` as
absent.) -/
theorem dedup_session (s : DatastreamState) (msgs : List (String × MsgData))
    (t : String) (ht : t ≠ "") (h0 : t ∉ s.transactions) :
    deliveredTxCount s msgs t ≤ 1 ∧
    (∀ (s1 : DatastreamState) (room : String) (d : MsgData),
      d.tx = some t → t ∈ s1.transactions →
        handleSocketMessage s1 room d = (s1, [])) ∧
    (∀ (s1 : DatastreamState) (room : String) (d : MsgData),
      d.tx = some t → t ∉ s1.transactions →
        (handleSocketMessage s1 room d).1.transactions =
          setAdd s1.transactions t ∧
        (handleSocketMessage s1 room d).2 ≠ []) ∧
    (∀ s1 : DatastreamState, (disconnect s1).transactions = []) := by
  refine ⟨deliveredTxCount_le_one t ht msgs s h0, ?_, ?_, fun s1 => rfl⟩
  · intro s1 room d hd hmem
    obtain ⟨dtx, dtok⟩ := d
    simp only [MsgData.tx] at hd
    subst hd
    simp [handleSocketMessage, ht, hmem]
  · intro s1 room d hd hmem
    obtain ⟨dtx, dtok⟩ := d
    simp only [MsgData.tx] at hd
    subst hd
    simp [handleSocketMessage, ht, hmem]

/-- C1 witness: a concrete session — two messages with the same nonempty tx
`"t9"` from a fresh state are delivered at most (in fact exactly) once, and
`disconnect()` empties a nonempty dedup set. -/
theorem dedup_session_witness :
    deliveredTxCount openState
      [("r", ⟨some "t9", none⟩), ("r", ⟨some "t9", none⟩)] "t9" ≤ 1 ∧
    (disconnect { openState with transactions := ["t1", "t2"] }).transactions
      = [] := by
  have h := dedup_session openState
    [("r", ⟨some "t9", none⟩), ("r", ⟨some "t9", none⟩)] "t9"
    (by decide) (by decide)
  exact ⟨h.1, h.2.2.2 _⟩

/-! ### Disconnect versus a pending reconnect timer (C5) -/

/-- A live connected session (both channels open, auto-reconnect on, one
room tracked, one transaction seen, no timer pending). -/
def connectedState : DatastreamState :=
  { socket := some wsOPEN, transactionSocket := some wsOPEN,
    subscribedRooms := ["price:ABC"], transactions := ["t1"],
    reconnectAttempts := 0, autoReconnect := true, isConnecting := false,
    pendingReconnects := 0 }

/-- C5 (code bug): `reconnect()` discards the `setTimeout` handle and
`disconnect()` never calls `clearTimeout`, so a reconnect timer scheduled by
a socket-close event survives `disconnect()`: on the concrete trace
close-then-disconnect the timer is still pending afterwards, and when it
fires it finds both socket fields null and `isConnecting` false and
initiates a fresh connection attempt — a reconnect fires after
`disconnect()` returned, which the claim forbids. -/
theorem disconnect_keeps_pending_reconnect :
    (handleSocketClose connectedState SocketType.main).pendingReconnects = 1 ∧
    DatastreamState.pendingReconnects
      (disconnect (handleSocketClose connectedState SocketType.main)) = 1 ∧
    (timerFire (disconnect (handleSocketClose connectedState SocketType.main))).2
      = true := by decide

/-! ### The windowed aggregator (`processEvents` / `processEventsAsync`)

Embedding notes: the per-timeframe accumulator record mirrors the object
literal the source initializes for each timeframe; a JavaScript
`Map<string,boolean>` used as a set of wallets becomes a duplicate-free
list of keys (`wallet` may be `undefined`, hence `Option String`);
`parseFloat(x.toString())` is the identity on the number model and is
dropped; the `priceChangePercentage` division is total `Rat` division
(the `lastPrice = 0` corner, where JavaScript would produce `Infinity`, is
identical in both execution modes, which is all C10 needs).  The async
variant's `onProgress` callback only reports percentages and touches no
accumulator state, so it is elided. -/

/-- The `timeframes` table, in declaration order (`Object.keys` order). -/
def timeframes : List (String × Nat) :=
  [("1m", 60), ("5m", 300), ("15m", 900), ("30m", 1800), ("1h", 3600),
   ("2h", 7200), ("3h", 10800), ("4h", 14400), ("5h", 18000), ("6h", 21600),
   ("12h", 43200), ("24h", 86400)]

/-- `timeframeBoundaries`: the source sorts `Object.entries(timeframes)` by
seconds ascending; the declaration order is already ascending, so the
(stable) sort is the identity — `timeframeBoundaries_sorted` certifies the
ascending order. -/
def timeframeBoundaries : List (String × Nat) := timeframes

theorem timeframeBoundaries_sorted :
    List.Pairwise (fun a b => a.2 ≤ b.2) timeframeBoundaries := by decide

/-- The per-timeframe accumulator object of `processEvents`. -/
structure PeriodStats where
  buys : Nat
  sells : Nat
  buyVolume : Rat
  sellVolume : Rat
  buyers : List (Option String)
  sellers : List (Option String)
  totalTransactions : Nat
  totalVolume : Rat
  totalWallets : List (Option String)
  initialPrice : Rat
  lastPrice : Rat
  hasData : Bool
  deriving DecidableEq, Repr

/-- The initial accumulator. -/
def initPeriod : PeriodStats :=
  { buys := 0, sells := 0, buyVolume := 0, sellVolume := 0, buyers := [],
    sellers := [], totalTransactions := 0, totalVolume := 0,
    totalWallets := [], initialPrice := 0, lastPrice := 0, hasData := false }

/-- `Map.set(k, true)` on a map used as a set: insert if absent. -/
def mapSet (m : List (Option String)) (k : Option String) :
    List (Option String) :=
  if k ∈ m then m else m ++ [k]

/-- The body of the per-timeframe update for one qualifying event. -/
def updatePeriod (e : ProcessedEvent) (p0 : PeriodStats) : PeriodStats :=
  let p1 := if !p0.hasData then
      { p0 with initialPrice := e.priceUsd, hasData := true }
    else p0
  let p2 := { p1 with totalTransactions := p1.totalTransactions + 1,
                      totalVolume := p1.totalVolume + e.volume,
                      totalWallets := mapSet p1.totalWallets e.wallet,
                      lastPrice := e.priceUsd }
  if e.type == "buy" then
    { p2 with buys := p2.buys + 1, buyVolume := p2.buyVolume + e.volume,
              buyers := mapSet p2.buyers e.wallet }
  else
    { p2 with sells := p2.sells + 1, sellVolume := p2.sellVolume + e.volume,
              sellers := mapSet p2.sellers e.wallet }

/-- One iteration of the event loop shared by both execution modes: skip
events that are neither buy nor sell; otherwise update every timeframe
whose boundary the event's age does not exceed (`timeDiff > seconds →
continue`).  The stats table carries (key, seconds, accumulator) rows in
boundary order. -/
def processOneEvent (currentTimestamp : Rat)
    (stats : List (String × Nat × PeriodStats)) (e : ProcessedEvent) :
    List (String × Nat × PeriodStats) :=
  if e.type != "buy" && e.type != "sell" then stats
  else
    stats.map (fun entry =>
      if currentTimestamp - e.time / 1000 > (entry.2.1 : Rat) then entry
      else (entry.1, entry.2.1, updatePeriod e entry.2.2))

/-- The freshly initialized stats table. -/
def initStats : List (String × Nat × PeriodStats) :=
  timeframeBoundaries.map (fun kv => (kv.1, kv.2, initPeriod))

/-- The published per-timeframe statistics (`TimeframeStats` in
`interfaces.ts`, with the nested `volume` object flattened). -/
structure TimeframeStats where
  buyers : Nat
  sellers : Nat
  volumeBuys : Rat
  volumeSells : Rat
  volumeTotal : Rat
  transactions : Nat
  buys : Nat
  sells : Nat
  wallets : Nat
  price : Rat
  priceChangePercentage : Rat
  deriving DecidableEq, Repr

/-- The final transform of one accumulator into published statistics. -/
def mkTimeframeStats (currentPrice : Rat) (p : PeriodStats) : TimeframeStats :=
  { buyers := p.buyers.length, sellers := p.sellers.length,
    volumeBuys := p.buyVolume, volumeSells := p.sellVolume,
    volumeTotal := p.totalVolume, transactions := p.totalTransactions,
    buys := p.buys, sells := p.sells, wallets := p.totalWallets.length,
    price := p.initialPrice,
    priceChangePercentage :=
      if 0 < p.initialPrice then
        100 * ((currentPrice - p.lastPrice) / p.lastPrice)
      else 0 }

/-- `stats[key]` on the keyed table. -/
def lookupPeriod (stats : List (String × Nat × PeriodStats)) (k : String) :
    Option PeriodStats :=
  (stats.find? (fun ent => ent.1 == k)).map (fun ent => ent.2.2)

/-- The final pass over `Object.keys(timeframes)`: timeframes without data
are omitted from the result entirely. -/
def finalizeStats (currentPrice : Rat)
    (stats : List (String × Nat × PeriodStats)) :
    List (String × TimeframeStats) :=
  timeframes.filterMap (fun kv =>
    match lookupPeriod stats kv.1 with
    | some p =>
      if p.hasData then some (kv.1, mkTimeframeStats currentPrice p) else none
    | none => none)

/-- `processEvents` (synchronous single pass) on a decoded event array;
`currentTimestamp` is the fixed evaluation clock `Date.now() / 1000` and
`currentPrice` is the first event's price. -/
def processEvents (events : List ProcessedEvent) (currentTimestamp : Rat) :
    List (String × TimeframeStats) :=
  match events with
  | [] => []
  | e0 :: _ =>
    finalizeStats e0.priceUsd
      (events.foldl (processOneEvent currentTimestamp) initStats)

/-- The chunk size of the cooperative mode. -/
def CHUNK_SIZE : Nat := 100000

/-- Split a list into consecutive chunks of `n` (the slice
`[chunk, min(chunk + CHUNK_SIZE, length))` of each loop iteration). -/
def chunksOf (n : Nat) : List α → List (List α)
  | [] => []
  | x :: xs => (x :: xs.take (n - 1)) :: chunksOf n (xs.drop (n - 1))
termination_by l => l.length
decreasing_by simp [List.length_drop]; omega

/-- `processEventsAsync` (chunked cooperative mode): identical per-event
work, performed chunk by chunk with a yield in between. -/
def processEventsAsync (events : List ProcessedEvent) (currentTimestamp : Rat) :
    List (String × TimeframeStats) :=
  match events with
  | [] => []
  | e0 :: _ =>
    finalizeStats e0.priceUsd
      ((chunksOf CHUNK_SIZE events).foldl
        (fun st chunk => chunk.foldl (processOneEvent currentTimestamp) st)
        initStats)

theorem chunksOf_foldl {α β : Type} (n : Nat) (f : β → α → β) :
    ∀ (l : List α) (s0 : β),
      (chunksOf n l).foldl (fun st c => c.foldl f st) s0 = l.foldl f s0
  | [], _ => by rw [chunksOf]; rfl
  | x :: xs, s0 => by
    rw [chunksOf]
    simp only [List.foldl_cons]
    rw [chunksOf_foldl n f (xs.drop (n - 1))]
    conv_rhs => rw [← List.take_append_drop (n - 1) xs]
    rw [List.foldl_append]
termination_by l => l.length
decreasing_by simp [List.length_drop]; omega

/-- C10: for every event array and every fixed evaluation clock, the
synchronous aggregator and the chunked cooperative aggregator produce
identical statistics maps — the chunked fold visits exactly the same events
in the same order, so every timeframe's buys, sells, volumes, transaction
counts, unique-wallet counts, initial price and price-change percentage
coincide. -/
theorem processEvents_eq_processEventsAsync (events : List ProcessedEvent)
    (currentTimestamp : Rat) :
    processEvents events currentTimestamp =
      processEventsAsync events currentTimestamp := by
  cases events with
  | nil => rfl
  | cons e0 rest =>
    unfold processEvents processEventsAsync
    rw [chunksOf_foldl]

end SolanaTracker
